import Mathlib

/-!
Verification development for the xdeck-scraper repository.

Shallow embedding of the core components referenced by the claims:
`error_handler.py` (retry wrapper), `data_processor.py` (aggregation,
validation, normalization), `tweet_scraper.py` (monitoring poll and the
log/index write sequence of `scrape_all_columns`), `tweet_refiner.py`
(similarity analysis, chunked column processing), and `main.py`
(daily-batch coordinator flag handling).

Python strings are modelled as Lean `String` (with character-level
helpers over `List Char`); the character model is faithful for the
ASCII range plus the specific Unicode punctuation the source replaces.
External effects (the browser fetch, the classifier HTTP call) are
modelled as explicit inputs (fetched item lists, API outcomes).
-/

namespace ErrorHandler

/-- Python exceptions relevant to `error_handler.py`: the module defines
subsystem-tagged exception classes (`APIError`, `NetworkError`,
`BrowserError`, `DataProcessingError`, `TelegramError`); any other
exception (e.g. a plain `ValueError`) carries no subsystem tag. -/
inductive PyExc where
  | apiError (msg : String)
  | networkError (msg : String)
  | browserError (msg : String)
  | dataProcessingError (msg : String)
  | telegramError (msg : String)
  | plainError (msg : String)
deriving DecidableEq, Repr

/-- Whether an exception is one of the subsystem-tagged classes defined in
`error_handler.py`. -/
def PyExc.isSubsystemTagged : PyExc → Bool
  | .apiError _ => true
  | .networkError _ => true
  | .browserError _ => true
  | .dataProcessingError _ => true
  | .telegramError _ => true
  | .plainError _ => false

/-- `RetryConfig` from `error_handler.py` (defaults 3 / 1.0 / 60.0). -/
structure RetryConfig where
  max_retries : Nat := 3
  base_delay : ℚ := 1
  max_delay : ℚ := 60
deriving Repr

/-- The delay computed inside the retry loop for (0-indexed) attempt
`k`: `min(base_delay * 2 ** attempt, max_delay)` (Python `min`, written
out as a comparison). -/
def retryDelay (cfg : RetryConfig) (k : Nat) : ℚ :=
  if cfg.base_delay * 2 ^ k ≤ cfg.max_delay then cfg.base_delay * 2 ^ k
  else cfg.max_delay

/-- Outcome of running the `with_retry` wrapper: the propagated result
(`.error none` only in the degenerate `max_retries = 0` case, where the
Python code would `raise None`), the number of times the wrapped
operation was called, and the sequence of sleep durations performed. -/
structure RetryTrace (α : Type) where
  result : Except (Option PyExc) α
  calls : Nat
  sleeps : List ℚ
deriving Repr

/-- The loop body of `wrapper` in `with_retry` (`error_handler.py`
lines 28-58), starting at a given attempt index. `remaining` is the
number of attempts still allowed, i.e. `max_retries - attempt` (made an
explicit structurally-decreasing argument). Each attempt calls the
operation; on success the value is returned immediately; on failure the
delay `min(base_delay * 2 ** attempt, max_delay)` is computed and slept
only when `attempt < max_retries - 1` (i.e. `remaining > 1`); after the
loop the last observed exception is re-raised. `op k` is the outcome of
the `k`-th call. -/
def retryGo (cfg : RetryConfig) (op : Nat → Except PyExc α) :
    Nat → Nat → Option PyExc → RetryTrace α
  | _, 0, last => ⟨.error last, 0, []⟩
  | attempt, remaining + 1, _ =>
    match op attempt with
    | .ok v => ⟨.ok v, 1, []⟩
    | .error e =>
      if remaining = 0 then ⟨.error (some e), 1, []⟩
      else
        let rest := retryGo cfg op (attempt + 1) remaining (some e)
        ⟨rest.result, rest.calls + 1, retryDelay cfg attempt :: rest.sleeps⟩

/-- `with_retry(cfg)` applied to an operation whose `k`-th call has
outcome `op k`. -/
def withRetry (cfg : RetryConfig) (op : Nat → Except PyExc α) : RetryTrace α :=
  retryGo cfg op 0 cfg.max_retries none

end ErrorHandler

namespace DataProcessor

/-- The whitespace characters Python's `\s` / `str.split()` / `str.strip()`
recognize in the ASCII range. -/
def pyIsWs (c : Char) : Bool :=
  c = ' ' || c = '\t' || c = '\n' || c = '\r' || c = Char.ofNat 11 || c = Char.ofNat 12

/-- `re.sub(r'\s+', ' ', text)`: every maximal run of whitespace becomes a
single space. -/
def collapseWs : List Char → List Char
  | [] => []
  | [c] => if pyIsWs c then [' '] else [c]
  | c₁ :: c₂ :: rest =>
    if pyIsWs c₁ then
      if pyIsWs c₂ then collapseWs (c₂ :: rest)
      else ' ' :: collapseWs (c₂ :: rest)
    else c₁ :: collapseWs (c₂ :: rest)

/-- Python `str.isprintable`, modelled faithfully on the ASCII range
(control characters 0-31 and 127 are non-printable, space is printable);
characters beyond ASCII are treated as printable, which is accurate for
every non-ASCII character the source goes on to replace (smart quotes,
ellipsis, dashes). -/
def pyIsPrintable (c : Char) : Bool :=
  if c.toNat < 128 then 32 ≤ c.toNat && c.toNat ≠ 127 else true

/-- The Unicode punctuation replacements of `normalize_text`
(`data_processor.py` lines 43-47): smart double quotes → `"`, smart
apostrophes → `'`, ellipsis → `...`, en/em dash → `-`. -/
def replaceSmartChar (c : Char) : List Char :=
  if c = Char.ofNat 0x201C || c = Char.ofNat 0x201D then ['"']
  else if c = Char.ofNat 0x2018 || c = Char.ofNat 0x2019 then ['\'']
  else if c = Char.ofNat 0x2026 then ['.', '.', '.']
  else if c = Char.ofNat 0x2013 || c = Char.ofNat 0x2014 then ['-']
  else [c]

/-- All smart-punctuation replacements applied across a string. -/
def replaceSmart (l : List Char) : List Char :=
  l.flatMap replaceSmartChar

/-- Helper for URL removal: given text positioned right after a matched
`http://` / `https://`, the regex `\S+` requires at least one non-space
character; on a match, return the remainder after the maximal non-space
run. -/
def nonWsTail : List Char → Option (List Char)
  | [] => none
  | c :: r =>
    if pyIsWs c then none
    else some (r.dropWhile (fun d => !(pyIsWs d)))

/-- Attempt to match `http[s]?://\S+` at the head of the text, returning
the remainder after the match. -/
def urlRest (l : List Char) : Option (List Char) :=
  if ("https://".data).isPrefixOf l then nonWsTail (l.drop 8)
  else if ("http://".data).isPrefixOf l then nonWsTail (l.drop 7)
  else none

theorem length_dropWhile_le (p : α → Bool) (l : List α) :
    (l.dropWhile p).length ≤ l.length := by
  induction l with
  | nil => simp
  | cons c t ih =>
    rw [List.dropWhile_cons]
    split
    · exact Nat.le_trans ih (Nat.le_succ _)
    · simp

theorem nonWsTail_length {l r : List Char} (h : nonWsTail l = some r) :
    r.length < l.length := by
  match l with
  | [] => simp [nonWsTail] at h
  | c :: t =>
    simp only [nonWsTail] at h
    split at h
    · exact absurd h (by simp)
    · have := length_dropWhile_le (fun d => !(pyIsWs d)) t
      simp only [Option.some.injEq] at h
      subst h
      simpa [Nat.lt_succ_iff] using this

theorem urlRest_length {l r : List Char} (h : urlRest l = some r) :
    r.length < l.length := by
  simp only [urlRest] at h
  split at h
  · have h1 := nonWsTail_length h
    have h2 := List.length_drop 8 l
    omega
  · split at h
    · have h1 := nonWsTail_length h
      have h2 := List.length_drop 7 l
      omega
    · exact absurd h (by simp)

/-- `re.sub(r'http[s]?://\S+', '', text)`: scan left to right, removing
each (leftmost, non-overlapping) URL match. `fuel` bounds the
recursion; every step consumes at least one character, so any
`fuel ≥ length` computes the scan in full. -/
def stripUrlsFuel : Nat → List Char → List Char
  | 0, _ => []
  | _ + 1, [] => []
  | fuel + 1, c :: rest =>
    match urlRest (c :: rest) with
    | some r => stripUrlsFuel fuel r
    | none => c :: stripUrlsFuel fuel rest

/-- The URL-removal scan with adequate fuel. -/
def stripUrls (l : List Char) : List Char :=
  stripUrlsFuel l.length l

/-- Python `str.strip()`: drop leading and trailing whitespace. -/
def pyStrip (l : List Char) : List Char :=
  ((l.dropWhile pyIsWs).reverse.dropWhile pyIsWs).reverse

/-- The character-level pipeline of `DataProcessor.normalize_text`
(`data_processor.py` lines 31-55): collapse whitespace runs, remove
non-printable characters, replace smart punctuation, remove URLs, trim. -/
def normalizeChars (l : List Char) : List Char :=
  pyStrip (stripUrls (replaceSmart ((collapseWs l).filter pyIsPrintable)))

/-- `DataProcessor.normalize_text`; the `if not text: return text` guard
returns falsy input unchanged. -/
def normalize_text (s : String) : String :=
  if s = "" then s else String.mk (normalizeChars s.data)

/-- Splitter underlying Python `str.split()` (no separator argument):
whitespace-delimited words, empty strings never produced. `acc` holds the
current in-progress word, reversed. -/
def wordsAux : List Char → List Char → List (List Char)
  | [], acc => if acc.isEmpty then [] else [acc.reverse]
  | c :: r, acc =>
    if pyIsWs c then
      if acc.isEmpty then wordsAux r [] else acc.reverse :: wordsAux r []
    else wordsAux r (c :: acc)

/-- `text.split()` as a list of words. The source's extra
`if w.strip()` filter is a no-op since `split()` never yields empty or
all-whitespace words. -/
def pyWords (s : String) : List String :=
  (wordsAux s.data []).map String.mk

/-- A raw tweet record as read from a column log by `data_processor.py`:
a JSON object whose relevant keys may be absent (`None` via `.get`). -/
structure RawTweet where
  id : Option String := none
  text : Option String := none
  authorHandle : Option String := none
deriving DecidableEq, Repr

/-- `DataProcessor.is_valid_tweet` (`data_processor.py` lines 57-69):
requires truthy `text` and at least 2 words after normalization. No
other field is examined. -/
def is_valid_tweet (t : RawTweet) : Bool :=
  match t.text with
  | none => false
  | some s =>
    if s = "" then false
    else 2 ≤ (pyWords (normalize_text s)).length

/-- The inline per-column dedup of `_process_raw_tweets`
(`data_processor.py` lines 199-204): keep a tweet iff its `id` (missing
modelled as `none`, matching Python `None`) has not been seen. -/
def dedupById : List RawTweet → List (Option String) → List RawTweet
  | [], _ => []
  | t :: rest, seen =>
    if t.id ∈ seen then dedupById rest seen
    else t :: dedupById rest (t.id :: seen)

/-- The normalization applied to retained tweets
(`data_processor.py` line 212): `tweet['text'] = normalize_text(...)`.
(The wall-clock `processed_at` stamp added by `_normalize_tweet` is not
part of the data model here.) -/
def normalizeTweet (t : RawTweet) : RawTweet :=
  { t with text := t.text.map normalize_text }

/-- One column's pass of `_process_raw_tweets`
(`data_processor.py` lines 195-216): dedup by id keeping first
occurrences, then retain only valid tweets, normalizing their text. -/
def processColumnTweets (tweets : List RawTweet) : List RawTweet :=
  ((dedupById tweets []).filter is_valid_tweet).map normalizeTweet

end DataProcessor

namespace TweetScraper

/-- The monitoring-mode head check of `_get_column_tweets_internal`
(`tweet_scraper.py` lines 176-194), at the level of item ids. `latest`
is `self.latest_tweets.get(column_id)` (`none` when absent), `fetched`
the id sequence of the tweets visible in the column, newest first.
When an index entry exists and at least one tweet is visible, the head
id is compared with the entry: equal means no new tweets; otherwise
only the head tweet is processed (`tweets = [first_tweet]`). Without an
index entry (or with nothing fetched) all fetched tweets are
processed. -/
def monitorPoll (latest : Option String) (fetched : List String) : List String :=
  match latest, fetched with
  | some lid, t :: _ => if t = lid then [] else [t]
  | _, _ => fetched

/-- One column's inputs to a monitoring pass of `scrape_all_columns`:
its id, the fetched id sequence (newest first), and whether the
raw-log file write succeeds (the `except` at line 320 swallows a
failure). -/
structure ColSpec where
  cid : String
  fetched : List String
  writeOk : Bool

/-- The externally observable effects of `scrape_all_columns`
(`tweet_scraper.py` lines 292-325), in program order: the in-memory
`self.latest_tweets[column_id]` assignment (line 297), a raw-log file
write (line 315, whole-file rewrite), and the final
`save_latest_tweets()` persisting the whole in-memory index mapping
(line 325). -/
inductive Eff where
  | memSet (cid : String) (tid : String)
  | logWrite (cid : String) (ids : List String)
  | indexSave (index : String → Option String)

/-- On-disk state: per-column raw-log contents (as id lists) and the
persisted DedupIndex (`latest_tweets.json`). -/
structure PersistState where
  logs : String → List String
  disk : String → Option String

/-- Applying one effect to the on-disk state: in-memory assignments do
not touch disk; a log write replaces that column's file; the index save
replaces the persisted index with the in-memory mapping. -/
def applyEff (p : PersistState) : Eff → PersistState
  | .memSet _ _ => p
  | .logWrite c ids => { p with logs := fun x => if x = c then ids else p.logs x }
  | .indexSave m => { p with disk := m }

/-- The on-disk state after a sequence of effects. -/
def persistAfter (p : PersistState) (effs : List Eff) : PersistState :=
  effs.foldl applyEff p

/-- The effect trace of a monitoring `scrape_all_columns` pass
(`tweet_scraper.py` lines 292-325). Columns are processed in order; a
column with new tweets first has its in-memory index entry set to the
head id (line 297), then (in monitoring mode) the new ids are prepended
to the existing log and written back (lines 302-316); a write failure
is caught at line 320, after the in-memory entry was already updated,
and the column is not counted in `results`. After all columns,
`save_latest_tweets()` runs iff `results` is nonempty (lines 324-325). -/
def scrapeEffects : List ColSpec → (String → Option String) → (String → List String) → Bool → List Eff
  | [], mem, _, anyResults => if anyResults then [.indexSave mem] else []
  | col :: rest, mem, logs, anyResults =>
    match monitorPoll (mem col.cid) col.fetched with
    | [] => scrapeEffects rest mem logs anyResults
    | h :: tl =>
      let mem' := fun x => if x = col.cid then some h else mem x
      if col.writeOk then
        let newLog := (h :: tl) ++ logs col.cid
        let logs' := fun x => if x = col.cid then newLog else logs x
        .memSet col.cid h :: .logWrite col.cid newLog :: scrapeEffects rest mem' logs' true
      else
        .memSet col.cid h :: scrapeEffects rest mem' logs anyResults

/-- The invariant of claim C2: the persisted DedupIndex never points at
an id absent from that column's on-disk raw log. -/
def IndexConsistent (p : PersistState) : Prop :=
  ∀ c i, p.disk c = some i → i ∈ p.logs c

/-- All crash-prefix states of an effect sequence satisfy
`IndexConsistent`. -/
def InvAllPrefixes (p : PersistState) (effs : List Eff) : Prop :=
  ∀ pre, pre <+: effs → IndexConsistent (persistAfter p pre)

end TweetScraper

namespace TweetRefiner

/-- Nested quoted/reposted content (`{text, authorHandle}`). -/
structure Content where
  text : String
  authorHandle : String
deriving DecidableEq, Repr

/-- A tweet record as handled by `tweet_refiner.py`. -/
structure RefTweet where
  id : String
  text : String
  authorHandle : String
  url : String := ""
  isRepost : Bool := false
  isQuoteRetweet : Bool := false
  quotedContent : Option Content := none
  repostedContent : Option Content := none
deriving DecidableEq, Repr

/-- The action field of the dict returned by `analyze_similarity` /
`_handle_repost_or_quote`. -/
inductive Action where
  | keep_all
  | select
deriving DecidableEq, Repr

/-- The decision dict `{action, selected_tweets, reason}`. -/
structure Decision where
  action : Action
  selected_tweets : List String
  reason : String
deriving DecidableEq, Repr

/-- The parsed JSON body of a successful (HTTP 200) classifier response:
`confidence` and `are_duplicates` may be absent (`result.get` defaults
0 and False), `keep_tweet_ids` and `reason` are read directly. -/
structure ApiResult where
  confidence : Option ℚ := none
  are_duplicates : Bool := false
  keep_tweet_ids : List String := []
  reason : String := ""
deriving DecidableEq, Repr

/-- The response-processing logic of `analyze_similarity`
(`tweet_refiner.py` lines 97-120): confidence below 0.95 (or missing,
defaulting to 0) forces `keep_all` with every input id; otherwise
`are_duplicates` selects `keep_tweet_ids`; otherwise `keep_all`. -/
def processApiResult (tweets : List RefTweet) (r : ApiResult) : Decision :=
  if r.confidence.getD 0 < 95 / 100 then
    ⟨.keep_all, tweets.map (·.id), "Confidence too low to determine similarity"⟩
  else if r.are_duplicates then
    ⟨.select, r.keep_tweet_ids, r.reason⟩
  else
    ⟨.keep_all, tweets.map (·.id), r.reason⟩

/-- Outcome of the classifier HTTP call, the external input of
`analyze_similarity`: a parsed 200 response, non-200 status on every
attempt (the loop falls through and returns `None`, line 138), or an
exception on the final attempt (the fallback of lines 130-136). -/
inductive ApiOutcome where
  | ok (r : ApiResult)
  | httpFail
  | exnFail

/-- `analyze_similarity` (`tweet_refiner.py` lines 20-142) as a function
of the tweets and the HTTP outcome. -/
def analyzeSimilarity (tweets : List RefTweet) : ApiOutcome → Option Decision
  | .ok r => some (processApiResult tweets r)
  | .httpFail => none
  | .exnFail => some ⟨.keep_all, tweets.map (·.id), "API failed, keeping all tweets"⟩

/-- The quote-tweet half of `_handle_repost_or_quote`
(`tweet_refiner.py` lines 174-201): the outer loop scans `remaining` for
quote tweets with quoted content; for each, the inner loop searches the
whole argument list `all` for a tweet matching the quoted text or
author; if none matches, the outer loop continues. On a match, the
quote is kept alongside the original iff its word set adds more than
30% new words relative to the quoted word set. -/
def quoteLoop : List RefTweet → List RefTweet → Option Decision
  | [], _ => none
  | t :: rest, all =>
    if t.isQuoteRetweet && t.quotedContent.isSome then
      let qc := t.quotedContent.getD ⟨"", ""⟩
      match all.find? (fun o => o.text = qc.text || o.authorHandle = qc.authorHandle) with
      | some o =>
        let quoteWords := (DataProcessor.pyWords t.text).dedup
        let quotedWords := (DataProcessor.pyWords qc.text).dedup
        let newWords := quoteWords.filter (fun w => !(quotedWords.contains w))
        if (newWords.length : ℚ) > (quotedWords.length : ℚ) * (3 / 10) then
          some ⟨.keep_all, [t.id, o.id], "Quote tweet adds significant new information"⟩
        else
          some ⟨.select, [o.id], "Selected original tweet over quote with minimal addition"⟩
      | none => quoteLoop rest all
    else quoteLoop rest all

/-- `_handle_repost_or_quote` (`tweet_refiner.py` lines 144-208). The
repost loop returns on the first repost carrying reposted content:
either the first non-repost matching the reposted text or author (the
original is kept), or — when no original is found — the repost itself.
Only if no such repost exists does the quote loop run. -/
def handleRepostOrQuote (tweets : List RefTweet) : Option Decision :=
  match tweets.find? (fun t => t.isRepost && t.repostedContent.isSome) with
  | some t =>
    let rc := t.repostedContent.getD ⟨"", ""⟩
    match tweets.find? (fun o => !o.isRepost && (o.text = rc.text || o.authorHandle = rc.authorHandle)) with
    | some o => some ⟨.select, [o.id], "Selected original tweet over repost"⟩
    | none => some ⟨.select, [t.id], "Kept repost as original not found"⟩
  | none => quoteLoop tweets tweets

/-- The per-repost loop of `group_tweets` (`tweet_refiner.py` lines
219-225): each repost is analyzed together with the remaining non-repost
pool; a decision moves the selected tweets (drawn from the full chunk
`all`) into the accumulated final list and removes them from the
non-repost pool. Returns the final list so far and the remaining
non-repost pool. -/
def repostLoop : List RefTweet → List RefTweet → List RefTweet → List RefTweet →
    List RefTweet × List RefTweet
  | [], nonReposts, _, acc => (acc, nonReposts)
  | rp :: rest, nonReposts, all, acc =>
    match handleRepostOrQuote (rp :: nonReposts) with
    | some result =>
      let selected := all.filter (fun t => result.selected_tweets.contains t.id)
      let nonReposts' := nonReposts.filter (fun t => !(result.selected_tweets.contains t.id))
      repostLoop rest nonReposts' all (acc ++ selected)
    | none => repostLoop rest nonReposts all acc

/-- `group_tweets` (`tweet_refiner.py` lines 210-243) as a function of
the chunk and the classifier oracle; returns the single produced group
together with the list of tweet lists sent to `analyze_similarity`. -/
def groupTweets (oracle : List RefTweet → ApiOutcome) (tweets : List RefTweet) :
    List (List RefTweet) × List (List RefTweet) :=
  let reposts := tweets.filter (·.isRepost)
  let nonReposts := tweets.filter (fun t => !t.isRepost)
  let (final₀, nr) := repostLoop reposts nonReposts tweets []
  if nr.length > 1 then
    match analyzeSimilarity nr (oracle nr) with
    | some d =>
      if d.action = .select then
        ([final₀ ++ nr.filter (fun t => d.selected_tweets.contains t.id)], [nr])
      else ([final₀ ++ nr], [nr])
    | none => ([final₀ ++ nr], [nr])
  else ([final₀ ++ nr], [])

/-- `TweetRefiner._is_valid_tweet` (`tweet_refiner.py` lines 245-269):
the required keys are present by construction of `RefTweet`; text must
be truthy with at least 2 words, id and authorHandle truthy and
non-blank after `strip()`. -/
def refIsValid (t : RefTweet) : Bool :=
  if t.text = "" || (DataProcessor.pyWords t.text).length < 2 then false
  else if t.id = "" || (DataProcessor.pyStrip t.id.data) = [] then false
  else if t.authorHandle = "" || (DataProcessor.pyStrip t.authorHandle.data) = [] then false
  else true

/-- The per-group loop of `process_chunk` (`tweet_refiner.py` lines
279-300): invalid tweets are filtered out; an empty group is skipped; a
singleton is kept directly; a larger group goes to `analyze_similarity`
(`keep_all` keeps every valid tweet, `select` keeps the listed ids, a
`None` result keeps nothing). Also returns the analyzed tweet lists. -/
def processGroups (oracle : List RefTweet → ApiOutcome) :
    List (List RefTweet) → List RefTweet × List (List RefTweet)
  | [] => ([], [])
  | g :: rest =>
    let valid := g.filter refIsValid
    let (restR, restQ) := processGroups oracle rest
    if valid.isEmpty then (restR, restQ)
    else if valid.length = 1 then (valid ++ restR, restQ)
    else
      let here :=
        match analyzeSimilarity valid (oracle valid) with
        | some dec =>
          if dec.action = .keep_all then valid
          else valid.filter (fun t => dec.selected_tweets.contains t.id)
        | none => []
      (here ++ restR, valid :: restQ)

/-- `process_chunk` (`tweet_refiner.py` lines 271-306): group the chunk,
then process each group; the second component collects every tweet list
passed to `analyze_similarity` while processing this chunk. -/
def processChunk (oracle : List RefTweet → ApiOutcome) (chunk : List RefTweet) :
    List RefTweet × List (List RefTweet) :=
  let (groups, qs) := groupTweets oracle chunk
  let (r, qs') := processGroups oracle groups
  (r, qs ++ qs')

/-- `self.chunk_size = 10` (`tweet_refiner.py` line 18). -/
def chunk_size : Nat := 10

/-- `[tweets[i:i + chunk_size] for i in range(0, len(tweets), chunk_size)]`
(`tweet_refiner.py` line 311). -/
def chunksOfFuel (n : Nat) : Nat → List α → List (List α)
  | _, [] => []
  | 0, _ :: _ => []
  | fuel + 1, x :: xs =>
    if n = 0 then []
    else (x :: xs).take n :: chunksOfFuel n fuel ((x :: xs).drop n)

/-- The chunking slice loop with adequate fuel (each step shortens the
list by `n ≥ 1`). -/
def chunksOf (n : Nat) (l : List α) : List (List α) :=
  chunksOfFuel n l.length l

/-- `process_column` (`tweet_refiner.py` lines 308-321): process the
fixed consecutive chunks independently and concatenate the results. -/
def processColumn (oracle : List RefTweet → ApiOutcome) (tweets : List RefTweet) :
    List RefTweet :=
  ((chunksOf chunk_size tweets).map (fun c => (processChunk oracle c).1)).flatten

/-- Every tweet list sent to `analyze_similarity` while `process_column`
runs, tagged with the chunk being processed at the time. -/
def processColumnQueries (oracle : List RefTweet → ApiOutcome) (tweets : List RefTweet) :
    List (List RefTweet × List RefTweet) :=
  (chunksOf chunk_size tweets).flatMap
    (fun c => ((processChunk oracle c).2).map (fun q => (c, q)))

/-- Modelled from the spec (§4.4 phase 3), for comparison with the
source: "normalized token sets (lowercased, URLs stripped)". No
corresponding computation exists in `tweet_refiner.py`. -/
def specTokenize (s : String) : List String :=
  DataProcessor.pyWords (String.mk ((DataProcessor.stripUrls s.data).map Char.toLower))

/-- Modelled from the spec: Jaccard similarity of the two token sets. -/
def specJaccard (a b : List String) : ℚ :=
  let A := a.dedup
  let B := b.dedup
  let inter := A.filter (fun w => B.contains w)
  let union := (A ++ B).dedup
  (inter.length : ℚ) / (union.length : ℚ)

/-- Modelled from the spec: positional sequence overlap, the fraction of
indices (over the shorter sequence) whose tokens agree. -/
def specSeqOverlap (a b : List String) : ℚ :=
  let m := min a.length b.length
  let hits := (List.range m).countP (fun i => a.getD i "" == b.getD i "")
  (hits : ℚ) / (m : ℚ)

/-- Modelled from the spec (§4.4 phase 3): the claimed lexical
similarity test — Jaccard ≥ 0.9, positional overlap ≥ 0.9, token-set
size difference ≤ 3. -/
def specLexicalSimilar (ta tb : String) : Prop :=
  9 / 10 ≤ specJaccard (specTokenize ta) (specTokenize tb) ∧
  9 / 10 ≤ specSeqOverlap (specTokenize ta) (specTokenize tb) ∧
  (((specTokenize ta).dedup.length : ℤ) - ((specTokenize tb).dedup.length : ℤ)).natAbs ≤ 3

end TweetRefiner

namespace MainBot

/-- The mutable coordinator flags of `TwitterNewsBot` (`main.py` lines
54-55). -/
structure BotState where
  is_running : Bool := true
  is_scraping : Bool := true
deriving DecidableEq, Repr

/-- The first failing stage's error in a sequence of stage outcomes
(`none` = stage succeeded): execution aborts at the first raise. -/
def firstFailure : List (Option String) → Option String
  | [] => none
  | none :: rest => firstFailure rest
  | some e :: _ => some e

/-- `process_daily_summaries` (`main.py` lines 285-325) as a function of
the five batch-stage outcomes: the flag is cleared, the stages run in
order until the first failure, and the `finally` block always restores
the flag; the outer `except` re-wraps a failure as a
`DataProcessingError`. Returns (final state, flag observed by the
stages, propagated error). -/
def processDailySummaries (s : BotState) (stages : List (Option String)) :
    BotState × Bool × Option String :=
  let s₁ : BotState := { s with is_scraping := false }
  let r := firstFailure stages
  let s₂ : BotState := { s₁ with is_scraping := true }
  (s₂, s₁.is_scraping, r.map (fun e => "Failed to process daily summaries: " ++ e))

/-- What one iteration of the polling loop does. -/
inductive LoopAction where
  | sleepRecheck
  | fetchCycle
deriving DecidableEq, Repr

/-- The head of the `continuous_scraping` loop body (`main.py` lines
333-341): when `is_scraping` is false the iteration sleeps one second
and rechecks; otherwise it starts a monitoring fetch cycle. -/
def continuousScrapingStep (s : BotState) : LoopAction :=
  if !s.is_scraping then .sleepRecheck else .fetchCycle

end MainBot

/-!
General lemmas about the retry wrapper.
-/

namespace ErrorHandler

theorem retryGo_calls_le (cfg : RetryConfig) (op : Nat → Except PyExc α) :
    ∀ remaining attempt last, (retryGo cfg op attempt remaining last).calls ≤ remaining := by
  intro remaining
  induction remaining with
  | zero => intro attempt last; simp [retryGo]
  | succ r ih =>
    intro attempt last
    simp only [retryGo]
    match op attempt with
    | .ok v => simp
    | .error e =>
      simp only
      split
      · simp
      · have := ih (attempt + 1) (some e)
        simp only [RetryTrace.calls]
        omega

theorem retryGo_calls_pos (cfg : RetryConfig) (op : Nat → Except PyExc α)
    (remaining attempt : Nat) (last : Option PyExc) (h : 1 ≤ remaining) :
    1 ≤ (retryGo cfg op attempt remaining last).calls := by
  match remaining with
  | 0 => omega
  | r + 1 =>
    simp only [retryGo]
    match op attempt with
    | .ok v => simp
    | .error e =>
      simp only
      split
      · simp
      · simp

theorem retryGo_sleeps (cfg : RetryConfig) (op : Nat → Except PyExc α) :
    ∀ remaining attempt last,
      (retryGo cfg op attempt remaining last).sleeps =
        (List.range ((retryGo cfg op attempt remaining last).calls - 1)).map
          (fun k => retryDelay cfg (attempt + k)) := by
  intro remaining
  induction remaining with
  | zero => intro attempt last; simp [retryGo]
  | succ r ih =>
    intro attempt last
    simp only [retryGo]
    match op attempt with
    | .ok v => simp
    | .error e =>
      simp only
      split
      · simp
      · rename_i hr
        have hpos : 1 ≤ (retryGo cfg op (attempt + 1) r (some e)).calls :=
          retryGo_calls_pos cfg op r (attempt + 1) (some e) (by omega)
        simp only [RetryTrace.sleeps, RetryTrace.calls]
        rw [ih (attempt + 1) (some e)]
        obtain ⟨m, hm⟩ : ∃ m, (retryGo cfg op (attempt + 1) r (some e)).calls = m + 1 :=
          ⟨_, (Nat.succ_pred_eq_of_pos hpos).symm⟩
        rw [hm]
        simp only [Nat.add_sub_cancel, List.range_succ_eq_map, List.map_cons, List.map_map,
          List.cons.injEq]
        refine ⟨by simp, ?_⟩
        apply List.map_congr_left
        intro k _
        simp only [Function.comp_apply]
        congr 1
        omega

theorem retryGo_all_fail (cfg : RetryConfig) (op : Nat → Except PyExc α) (err : Nat → PyExc) :
    ∀ remaining attempt last, 1 ≤ remaining →
      (∀ k, attempt ≤ k → k < attempt + remaining → op k = .error (err k)) →
      (retryGo cfg op attempt remaining last).result =
        .error (some (err (attempt + remaining - 1))) := by
  intro remaining
  induction remaining with
  | zero => intro attempt last h; omega
  | succ r ih =>
    intro attempt last _ hop
    have hat : op attempt = .error (err attempt) := hop attempt (le_refl _) (by omega)
    simp only [retryGo, hat]
    split
    · rename_i hr
      subst hr
      simp
    · rename_i hr
      simp only [RetryTrace.result]
      have hrec := ih (attempt + 1) (some (err attempt)) (by omega)
        (fun k hk1 hk2 => hop k (by omega) (by omega))
      have heq : attempt + 1 + r - 1 = attempt + (r + 1) - 1 := by omega
      rw [hrec, heq]

end ErrorHandler

/-- Claim C4: the retry wrapper calls the wrapped operation at most
`max_retries` times; the sleeps performed are exactly
`min(base_delay * 2 ** k, max_delay)` after each (0-indexed) failed
attempt `k` that is not the final attempt (so no sleep follows the
final attempt); for the config `maxAttempts=3, baseDelay=2s,
maxDelay=30s` and an always-failing operation the delay sequence is
exactly `2s, 4s`. -/
theorem c4_retry_call_and_sleep_schedule :
    (∀ (α : Type) (cfg : ErrorHandler.RetryConfig) (op : Nat → Except ErrorHandler.PyExc α),
      (ErrorHandler.withRetry cfg op).calls ≤ cfg.max_retries ∧
      (ErrorHandler.withRetry cfg op).sleeps =
        (List.range ((ErrorHandler.withRetry cfg op).calls - 1)).map
          (ErrorHandler.retryDelay cfg)) ∧
    (ErrorHandler.withRetry ⟨3, 2, 30⟩
        (fun _ => (Except.error (ErrorHandler.PyExc.plainError "fail") :
          Except ErrorHandler.PyExc Unit))).sleeps = [2, 4] := by
  refine ⟨fun α cfg op => ⟨ErrorHandler.retryGo_calls_le cfg op cfg.max_retries 0 none, ?_⟩, ?_⟩
  · rw [ErrorHandler.withRetry, ErrorHandler.retryGo_sleeps]
    simp [ErrorHandler.withRetry]
  · simp [ErrorHandler.withRetry, ErrorHandler.retryGo, ErrorHandler.retryDelay]
    norm_num

/-- Claim C5, counterexample: with an always-failing operation whose
error carries no subsystem tag (a plain exception), the value
propagated by the retry wrapper is exactly that raw error — the code
executes `raise last_exception` without constructing any of the
subsystem-tagged exception classes, so the propagated error is not
"wrapped in a kind tag" as the claim states. -/
theorem c5_counterexample_no_kind_wrapping :
    (ErrorHandler.withRetry ⟨3, 2, 30⟩
        (fun _ => (Except.error (ErrorHandler.PyExc.plainError "boom") :
          Except ErrorHandler.PyExc Unit))).result
      = .error (some (.plainError "boom")) ∧
    ErrorHandler.PyExc.isSubsystemTagged (.plainError "boom") = false := by
  constructor
  · simp [ErrorHandler.withRetry, ErrorHandler.retryGo]
  · rfl

/-- Claim C5, amended: when every one of the `max_retries` attempts
fails, the error propagated to the caller is the last observed error,
re-raised unchanged (no wrapping in a subsystem kind tag takes place
inside the wrapper). -/
theorem c5_amended_last_error_propagated_unchanged :
    ∀ (α : Type) (cfg : ErrorHandler.RetryConfig) (op : Nat → Except ErrorHandler.PyExc α)
      (err : Nat → ErrorHandler.PyExc),
      1 ≤ cfg.max_retries →
      (∀ k, k < cfg.max_retries → op k = .error (err k)) →
      (ErrorHandler.withRetry cfg op).result = .error (some (err (cfg.max_retries - 1))) := by
  intro α cfg op err hmr hop
  have := ErrorHandler.retryGo_all_fail cfg op err cfg.max_retries 0 none hmr
    (fun k hk1 hk2 => hop k (by omega))
  simpa [ErrorHandler.withRetry] using this

/-- Witness for `c5_amended_last_error_propagated_unchanged`: a
three-attempt run whose last failure is a plain error distinct from the
earlier network errors; the propagated error is exactly the last one. -/
theorem c5_amended_witness :
    (ErrorHandler.withRetry ⟨3, 2, 30⟩
        (fun k => (Except.error (if k = 2 then ErrorHandler.PyExc.plainError "last"
            else ErrorHandler.PyExc.networkError "early") : Except ErrorHandler.PyExc Unit))).result
      = .error (some (.plainError "last")) := by
  have h := c5_amended_last_error_propagated_unchanged Unit ⟨3, 2, 30⟩
    (fun k => (Except.error (if k = 2 then ErrorHandler.PyExc.plainError "last"
        else ErrorHandler.PyExc.networkError "early") : Except ErrorHandler.PyExc Unit))
    (fun k => if k = 2 then ErrorHandler.PyExc.plainError "last"
        else ErrorHandler.PyExc.networkError "early")
    (by norm_num) (fun k _ => rfl)
  simpa using h

/-!
Lemmas about per-column aggregation (`data_processor.py`).
-/

namespace DataProcessor

/-- Occurrences of a given id in a tweet list. -/
def countId (l : List RawTweet) (i : String) : Nat :=
  (l.filter (fun t => decide (t.id = some i))).length

/-- The first tweet carrying a given id, in list order. -/
def firstWithId (l : List RawTweet) (i : String) : Option RawTweet :=
  l.find? (fun t => decide (t.id = some i))

theorem dedupById_subset : ∀ (l : List RawTweet) (seen : List (Option String)) (x : RawTweet),
    x ∈ dedupById l seen → x ∈ l := by
  intro l
  induction l with
  | nil => intro seen x h; simp [dedupById] at h
  | cons t rest ih =>
    intro seen x h
    simp only [dedupById] at h
    split at h
    · exact List.mem_cons_of_mem _ (ih _ _ h)
    · rcases List.mem_cons.mp h with h1 | h2
      · exact h1 ▸ List.mem_cons_self _ _
      · exact List.mem_cons_of_mem _ (ih _ _ h2)

theorem dedupById_countId (i : String) :
    ∀ (l : List RawTweet) (seen : List (Option String)),
      (some i ∈ seen → countId (dedupById l seen) i = 0) ∧
      (some i ∉ seen → countId (dedupById l seen) i ≤ 1) := by
  intro l
  induction l with
  | nil => intro seen; simp [dedupById, countId]
  | cons t rest ih =>
    intro seen
    constructor
    · intro hmem
      simp only [dedupById]
      split
      · exact (ih seen).1 hmem
      · rename_i hnot
        have hne : ¬ t.id = some i := fun he => hnot (he ▸ hmem)
        simp only [countId, List.filter_cons, decide_eq_true_eq]
        rw [if_neg (by simpa using hne)]
        exact (ih (t.id :: seen)).1 (List.mem_cons_of_mem _ hmem)
    · intro hmem
      simp only [dedupById]
      split
      · exact (ih seen).2 hmem
      · rename_i hnot
        by_cases hti : t.id = some i
        · simp only [countId, List.filter_cons, decide_eq_true_eq, if_pos hti]
          have h0 : countId (dedupById rest (t.id :: seen)) i = 0 :=
            (ih (t.id :: seen)).1 (by rw [hti]; exact List.mem_cons_self _ _)
          simp only [countId] at h0
          simp [h0]
        · simp only [countId, List.filter_cons, decide_eq_true_eq, if_neg hti]
          have := (ih (t.id :: seen)).2 (by
            intro hc
            rcases List.mem_cons.mp hc with h1 | h2
            · exact hti h1.symm
            · exact hmem h2)
          simpa [countId] using this

theorem dedupById_keeps_first (i : String) :
    ∀ (l : List RawTweet) (seen : List (Option String)) (t : RawTweet),
      some i ∉ seen → firstWithId l i = some t →
      t ∈ dedupById l seen ∧ countId (dedupById l seen) i = 1 := by
  intro l
  induction l with
  | nil => intro seen t _ hf; simp [firstWithId] at hf
  | cons hd rest ih =>
    intro seen t hseen hf
    simp only [firstWithId, List.find?_cons] at hf
    by_cases hhd : hd.id = some i
    · rw [decide_eq_true hhd] at hf
      obtain rfl : hd = t := by simpa using hf
      have hnotseen : hd.id ∉ seen := fun hc => hseen (hhd ▸ hc)
      simp only [dedupById, if_neg hnotseen]
      refine ⟨List.mem_cons_self _ _, ?_⟩
      simp only [countId, List.filter_cons, decide_eq_true_eq, if_pos hhd]
      have h0 : countId (dedupById rest (hd.id :: seen)) i = 0 :=
        (dedupById_countId i rest (hd.id :: seen)).1 (by rw [hhd]; exact List.mem_cons_self _ _)
      simp only [countId] at h0
      simp [h0]
    · rw [decide_eq_false hhd] at hf
      simp only [dedupById]
      split
      · exact ih seen t hseen hf
      · rename_i hnot
        have hseen' : some i ∉ hd.id :: seen := by
          intro hc
          rcases List.mem_cons.mp hc with h1 | h2
          · exact hhd h1.symm
          · exact hseen h2
        obtain ⟨hmem, hcount⟩ := ih (hd.id :: seen) t hseen' hf
        refine ⟨List.mem_cons_of_mem _ hmem, ?_⟩
        simp only [countId, List.filter_cons, decide_eq_true_eq, if_neg hhd]
        simpa [countId] using hcount

theorem normalizeTweet_id (t : RawTweet) : (normalizeTweet t).id = t.id := rfl

theorem countId_map_normalize (l : List RawTweet) (i : String) :
    countId (l.map normalizeTweet) i = countId l i := by
  simp only [countId, List.filter_map]
  rw [List.length_map]
  rfl

theorem countId_filter_le (l : List RawTweet) (p : RawTweet → Bool) (i : String) :
    countId (l.filter p) i ≤ countId l i :=
  List.Sublist.length_le (List.Sublist.filter _ (List.filter_sublist l))

theorem countId_pos_of_mem {l : List RawTweet} {x : RawTweet} {i : String}
    (hx : x ∈ l) (hid : x.id = some i) : 1 ≤ countId l i := by
  have : x ∈ l.filter (fun t => decide (t.id = some i)) :=
    List.mem_filter.mpr ⟨hx, by simpa using hid⟩
  have := List.length_pos.mpr (List.ne_nil_of_mem this)
  simpa [countId] using this

end DataProcessor

/-- Claim C6, counterexample: an item whose `id` and `authorHandle` are
both missing but whose text is valid ("hello world") is retained by the
aggregator's per-column pass — `is_valid_tweet` examines only the text,
so the claim that missing `id`/`authorHandle` cause the item to be
dropped is false. -/
theorem c6_counterexample_missing_fields_retained :
    (DataProcessor.RawTweet.mk none (some "hello world") none).id = none ∧
    (DataProcessor.RawTweet.mk none (some "hello world") none).authorHandle = none ∧
    DataProcessor.processColumnTweets [DataProcessor.RawTweet.mk none (some "hello world") none]
      = [DataProcessor.RawTweet.mk none (some "hello world") none] := by
  refine ⟨rfl, rfl, ?_⟩
  decide

/-- Claim C6, amended: an item is retained by the per-column pass only
if its text is valid (present, and at least 2 words after
normalization); items with missing/empty text or fewer than 2
normalized words are dropped. Validity depends only on the text field,
so a missing `id` or `authorHandle` alone never causes a drop. -/
theorem c6_amended_drop_is_text_only :
    (∀ (l : List DataProcessor.RawTweet) (u : DataProcessor.RawTweet),
      u ∈ DataProcessor.processColumnTweets l →
      ∃ t, t ∈ l ∧ DataProcessor.is_valid_tweet t = true ∧
        u = DataProcessor.normalizeTweet t) ∧
    (∀ t t' : DataProcessor.RawTweet, t.text = t'.text →
      DataProcessor.is_valid_tweet t = DataProcessor.is_valid_tweet t') ∧
    (∀ t : DataProcessor.RawTweet, (t.text = none ∨ t.text = some "") →
      DataProcessor.is_valid_tweet t = false) ∧
    (∀ (t : DataProcessor.RawTweet) (s : String), t.text = some s →
      (DataProcessor.pyWords (DataProcessor.normalize_text s)).length < 2 →
      DataProcessor.is_valid_tweet t = false) := by
  refine ⟨?_, ?_, ?_, ?_⟩
  · intro l u hu
    simp only [DataProcessor.processColumnTweets, List.mem_map, List.mem_filter] at hu
    obtain ⟨t, ⟨hmem, hvalid⟩, hmap⟩ := hu
    exact ⟨t, DataProcessor.dedupById_subset l [] t hmem, hvalid, hmap.symm⟩
  · intro t t' htext
    simp only [DataProcessor.is_valid_tweet, htext]
  · intro t ht
    rcases ht with h | h <;> simp [DataProcessor.is_valid_tweet, h]
  · intro t s hs hw
    simp only [DataProcessor.is_valid_tweet, hs]
    split
    · rfl
    · simp only [decide_eq_false_iff_not]
      omega

/-- Witness for `c6_amended_drop_is_text_only`, discharging each
hypothesis at concrete inputs: a valid-text item with missing id/author
is traced back to a valid source item; validity agrees across records
differing only outside the text; a missing text and a one-word text are
both invalid. -/
theorem c6_amended_witness :
    (∃ t, t ∈ [DataProcessor.RawTweet.mk none (some "hello world") none] ∧
      DataProcessor.is_valid_tweet t = true ∧
      DataProcessor.RawTweet.mk none (some "hello world") none =
        DataProcessor.normalizeTweet t) ∧
    DataProcessor.is_valid_tweet ⟨some "1", some "hello world", some "a"⟩ =
      DataProcessor.is_valid_tweet ⟨some "2", some "hello world", some "b"⟩ ∧
    DataProcessor.is_valid_tweet ⟨some "1", none, some "a"⟩ = false ∧
    DataProcessor.is_valid_tweet ⟨some "1", some "hi", some "a"⟩ = false :=
  ⟨c6_amended_drop_is_text_only.1 [⟨none, some "hello world", none⟩]
      ⟨none, some "hello world", none⟩ (by decide),
    c6_amended_drop_is_text_only.2.1 _ _ rfl,
    c6_amended_drop_is_text_only.2.2.1 _ (Or.inl rfl),
    c6_amended_drop_is_text_only.2.2.2 _ "hi" rfl (by decide)⟩

/-- Claim C7, counterexample: a raw log whose first occurrence of the
duplicated id "x" has invalid (empty) text. The dedup pass keeps only
the first occurrence and the subsequent validity filter drops it, so
the id "x" appears zero times in the output — not "exactly once" as the
claim states. -/
theorem c7_counterexample_invalid_first_occurrence :
    DataProcessor.countId
        [DataProcessor.RawTweet.mk (some "x") (some "") none,
         DataProcessor.RawTweet.mk (some "x") (some "hello world") (some "a")] "x" = 2 ∧
    DataProcessor.countId
      (DataProcessor.processColumnTweets
        [DataProcessor.RawTweet.mk (some "x") (some "") none,
         DataProcessor.RawTweet.mk (some "x") (some "hello world") (some "a")]) "x" = 0 := by
  constructor
  · decide
  · decide

/-- Claim C7, amended: each id appears at most once in a source's
aggregated output; when the first occurrence of the id in the log (in
file order) passes validity, the id appears exactly once and the
retained item is exactly that first occurrence (with normalized text).
If the first occurrence is invalid, the id may be dropped entirely even
when a later valid duplicate exists. -/
theorem c7_amended_dedup_keeps_first_valid :
    (∀ (l : List DataProcessor.RawTweet) (i : String),
      DataProcessor.countId (DataProcessor.processColumnTweets l) i ≤ 1) ∧
    (∀ (l : List DataProcessor.RawTweet) (i : String) (t : DataProcessor.RawTweet),
      DataProcessor.firstWithId l i = some t →
      DataProcessor.is_valid_tweet t = true →
      DataProcessor.normalizeTweet t ∈ DataProcessor.processColumnTweets l ∧
      DataProcessor.countId (DataProcessor.processColumnTweets l) i = 1) := by
  constructor
  · intro l i
    have h1 := (DataProcessor.dedupById_countId i l []).2 (by simp)
    calc DataProcessor.countId (DataProcessor.processColumnTweets l) i
        = DataProcessor.countId
            ((DataProcessor.dedupById l []).filter DataProcessor.is_valid_tweet) i := by
          rw [DataProcessor.processColumnTweets, DataProcessor.countId_map_normalize]
      _ ≤ DataProcessor.countId (DataProcessor.dedupById l []) i :=
          DataProcessor.countId_filter_le _ _ i
      _ ≤ 1 := h1
  · intro l i t hf hvalid
    obtain ⟨hmem, _⟩ := DataProcessor.dedupById_keeps_first i l [] t (by simp) hf
    have htid : t.id = some i := by
      have := List.find?_some hf
      simpa using this
    have hmem2 : t ∈ (DataProcessor.dedupById l []).filter DataProcessor.is_valid_tweet :=
      List.mem_filter.mpr ⟨hmem, hvalid⟩
    have hout : DataProcessor.normalizeTweet t ∈ DataProcessor.processColumnTweets l :=
      List.mem_map_of_mem _ hmem2
    refine ⟨hout, le_antisymm ?_ ?_⟩
    · have h1 := (DataProcessor.dedupById_countId i l []).2 (by simp)
      calc DataProcessor.countId (DataProcessor.processColumnTweets l) i
          = DataProcessor.countId
              ((DataProcessor.dedupById l []).filter DataProcessor.is_valid_tweet) i := by
            rw [DataProcessor.processColumnTweets, DataProcessor.countId_map_normalize]
        _ ≤ DataProcessor.countId (DataProcessor.dedupById l []) i :=
            DataProcessor.countId_filter_le _ _ i
        _ ≤ 1 := h1
    · exact DataProcessor.countId_pos_of_mem hout
        (by rw [DataProcessor.normalizeTweet_id]; exact htid)

/-- Witness for `c7_amended_dedup_keeps_first_valid`: a log with a
valid first occurrence of id "x" followed by a duplicate; the retained
item is the normalized first occurrence and the output counts "x"
exactly once. -/
theorem c7_amended_witness :
    DataProcessor.countId
      (DataProcessor.processColumnTweets
        [DataProcessor.RawTweet.mk (some "x") (some "hello world") (some "a"),
         DataProcessor.RawTweet.mk (some "y") (some "other text") (some "b"),
         DataProcessor.RawTweet.mk (some "x") (some "later duplicate") (some "c")]) "x" = 1 ∧
    DataProcessor.normalizeTweet ⟨some "x", some "hello world", some "a"⟩ ∈
      DataProcessor.processColumnTweets
        [DataProcessor.RawTweet.mk (some "x") (some "hello world") (some "a"),
         DataProcessor.RawTweet.mk (some "y") (some "other text") (some "b"),
         DataProcessor.RawTweet.mk (some "x") (some "later duplicate") (some "c")] := by
  have h := c7_amended_dedup_keeps_first_valid.2
    [⟨some "x", some "hello world", some "a"⟩,
     ⟨some "y", some "other text", some "b"⟩,
     ⟨some "x", some "later duplicate", some "c"⟩] "x"
    ⟨some "x", some "hello world", some "a"⟩ (by decide) (by decide)
  exact ⟨h.2, h.1⟩

/-!
Lemmas about the scraper's effect traces (`tweet_scraper.py`).
-/

namespace TweetScraper

theorem persistAfter_nil (p : PersistState) : persistAfter p [] = p := rfl

theorem persistAfter_cons (p : PersistState) (e : Eff) (es : List Eff) :
    persistAfter p (e :: es) = persistAfter (applyEff p e) es := rfl

theorem invAllPrefixes_nil {p : PersistState} (h : IndexConsistent p) :
    InvAllPrefixes p [] := by
  intro pre hpre
  have hp : pre = [] := List.prefix_nil.mp hpre
  subst hp
  exact h

theorem invAllPrefixes_cons {p : PersistState} {e : Eff} {es : List Eff}
    (h : IndexConsistent p) (htail : InvAllPrefixes (applyEff p e) es) :
    InvAllPrefixes p (e :: es) := by
  intro pre hpre
  match pre with
  | [] => exact h
  | e' :: pre' =>
    obtain ⟨rfl, hp⟩ := List.cons_prefix_cons.mp hpre
    exact htail pre' hp

theorem scrapeEffects_cons_none (col : ColSpec) (rest : List ColSpec)
    (mem : String → Option String) (logs : String → List String) (acc : Bool)
    (hpoll : monitorPoll (mem col.cid) col.fetched = []) :
    scrapeEffects (col :: rest) mem logs acc = scrapeEffects rest mem logs acc := by
  simp only [scrapeEffects, hpoll]

theorem scrapeEffects_cons_write (col : ColSpec) (rest : List ColSpec)
    (mem : String → Option String) (logs : String → List String) (acc : Bool)
    (h : String) (tl : List String)
    (hpoll : monitorPoll (mem col.cid) col.fetched = h :: tl)
    (hw : col.writeOk = true) :
    scrapeEffects (col :: rest) mem logs acc =
      .memSet col.cid h :: .logWrite col.cid ((h :: tl) ++ logs col.cid) ::
        scrapeEffects rest (fun x => if x = col.cid then some h else mem x)
          (fun x => if x = col.cid then (h :: tl) ++ logs col.cid else logs x) true := by
  simp only [scrapeEffects, hpoll, hw, if_true]

theorem scrapeEffects_inv : ∀ (cols : List ColSpec)
    (mem : String → Option String) (logs : String → List String)
    (disk : String → Option String) (acc : Bool),
    (∀ col ∈ cols, col.writeOk = true) →
    (∀ c i, mem c = some i → i ∈ logs c) →
    IndexConsistent ⟨logs, disk⟩ →
    InvAllPrefixes ⟨logs, disk⟩ (scrapeEffects cols mem logs acc) := by
  intro cols
  induction cols with
  | nil =>
    intro mem logs disk acc _ hml hinv
    simp only [scrapeEffects]
    split
    · apply invAllPrefixes_cons hinv
      apply invAllPrefixes_nil
      intro c i hdi
      exact hml c i hdi
    · exact invAllPrefixes_nil hinv
  | cons col rest ih =>
    intro mem logs disk acc hok hml hinv
    cases hpoll : monitorPoll (mem col.cid) col.fetched with
    | nil =>
      rw [scrapeEffects_cons_none col rest mem logs acc hpoll]
      exact ih mem logs disk acc (fun c hc => hok c (List.mem_cons_of_mem _ hc)) hml hinv
    | cons h tl =>
      have hw : col.writeOk = true := hok col (List.mem_cons_self _ _)
      rw [scrapeEffects_cons_write col rest mem logs acc h tl hpoll hw]
      apply invAllPrefixes_cons hinv
      apply invAllPrefixes_cons hinv
      have hml' : ∀ c i, (fun x => if x = col.cid then some h else mem x) c = some i →
          i ∈ (fun x => if x = col.cid then (h :: tl) ++ logs col.cid else logs x) c := by
        intro c i hc
        by_cases hcc : c = col.cid
        · subst hcc
          simp only [if_true, eq_self_iff_true, Option.some.injEq] at hc
          subst hc
          simp
        · simp only [if_neg hcc] at hc ⊢
          exact hml c i hc
      have hinv' : IndexConsistent
          ⟨fun x => if x = col.cid then (h :: tl) ++ logs col.cid else logs x, disk⟩ := by
        intro c i hdi
        by_cases hcc : c = col.cid
        · subst hcc
          simp only [if_pos rfl]
          exact List.mem_append_right _ (hinv _ i hdi)
        · simp only [if_neg hcc]
          exact hinv c i hdi
      exact ih _ _ disk true (fun c hc => hok c (List.mem_cons_of_mem _ hc)) hml' hinv'

end TweetScraper

/-- Claim C1, counterexample: with `DedupIndex[A] = t1` and fetched
sequence `[t3, t2, t1]`, the monitoring poll processes only the first
(head) tweet — `tweets = [first_tweet]` at `tweet_scraper.py` line 194 —
so it returns `[t3]`, not `[t3, t2]` as the claim states. -/
theorem c1_counterexample_only_head_returned :
    TweetScraper.monitorPoll (some "t1") ["t3", "t2", "t1"] = ["t3"] ∧
    TweetScraper.monitorPoll (some "t1") ["t3", "t2", "t1"] ≠ ["t3", "t2"] := by
  constructor
  · decide
  · decide

/-- Claim C1, amended: for a source polled in monitoring mode whose
DedupIndex entry is set to `t1` and whose fetched sequence is
`[t3, t2, t1]` (newest first) with `t3 ≠ t1`, the poll returns only the
head item `[t3]` as new (a single monitoring poll captures at most one
new item), prepends it to the raw log, and updates the persisted
DedupIndex entry to `t3`; if the entry already equals the head id, the
poll returns `[]` and produces no raw-log or index write at all. -/
theorem c1_amended_monitor_head_only :
    ∀ (c t3 t2 t1 : String) (mem : String → Option String)
      (logs : String → List String) (disk : String → Option String),
      mem c = some t1 → t3 ≠ t1 →
      TweetScraper.monitorPoll (mem c) [t3, t2, t1] = [t3] ∧
      (TweetScraper.persistAfter ⟨logs, disk⟩
          (TweetScraper.scrapeEffects [⟨c, [t3, t2, t1], true⟩] mem logs false)).disk c
        = some t3 ∧
      (TweetScraper.persistAfter ⟨logs, disk⟩
          (TweetScraper.scrapeEffects [⟨c, [t3, t2, t1], true⟩] mem logs false)).logs c
        = t3 :: logs c ∧
      (∀ mem' : String → Option String, mem' c = some t3 →
        TweetScraper.scrapeEffects [⟨c, [t3, t2, t1], true⟩] mem' logs false = []) := by
  intro c t3 t2 t1 mem logs disk hmem hne
  have hpoll : TweetScraper.monitorPoll (mem c) [t3, t2, t1] = [t3] := by
    rw [hmem]
    simp only [TweetScraper.monitorPoll, if_neg hne]
  refine ⟨hpoll, ?_, ?_, ?_⟩
  · rw [TweetScraper.scrapeEffects_cons_write ⟨c, [t3, t2, t1], true⟩ [] mem logs false t3 []
      hpoll rfl]
    simp only [TweetScraper.scrapeEffects, if_true]
    simp [TweetScraper.persistAfter, TweetScraper.applyEff]
  · rw [TweetScraper.scrapeEffects_cons_write ⟨c, [t3, t2, t1], true⟩ [] mem logs false t3 []
      hpoll rfl]
    simp only [TweetScraper.scrapeEffects, if_true]
    simp [TweetScraper.persistAfter, TweetScraper.applyEff]
  · intro mem' hmem'
    have hpoll' : TweetScraper.monitorPoll (mem' c) [t3, t2, t1] = [] := by
      rw [hmem']
      simp [TweetScraper.monitorPoll]
    rw [TweetScraper.scrapeEffects_cons_none ⟨c, [t3, t2, t1], true⟩ [] mem' logs false hpoll']
    simp [TweetScraper.scrapeEffects]

/-- Witness for `c1_amended_monitor_head_only` at a concrete
source/id/state instantiation. -/
theorem c1_amended_witness :
    TweetScraper.monitorPoll ((fun _ => some "t1") "A") ["t3", "t2", "t1"] = ["t3"] ∧
    (TweetScraper.persistAfter ⟨fun _ => ["t1"], fun _ => some "t1"⟩
        (TweetScraper.scrapeEffects [⟨"A", ["t3", "t2", "t1"], true⟩]
          (fun _ => some "t1") (fun _ => ["t1"]) false)).disk "A" = some "t3" ∧
    (TweetScraper.persistAfter ⟨fun _ => ["t1"], fun _ => some "t1"⟩
        (TweetScraper.scrapeEffects [⟨"A", ["t3", "t2", "t1"], true⟩]
          (fun _ => some "t1") (fun _ => ["t1"]) false)).logs "A" = ["t3", "t1"] ∧
    TweetScraper.scrapeEffects [⟨"A", ["t3", "t2", "t1"], true⟩]
      (fun _ => some "t3") (fun _ => ["t1"]) false = [] := by
  have h := c1_amended_monitor_head_only "A" "t3" "t2" "t1" (fun _ => some "t1")
    (fun _ => ["t1"]) (fun _ => some "t1") rfl (by decide)
  exact ⟨h.1, h.2.1, h.2.2.1, h.2.2.2 (fun _ => some "t3") rfl⟩

/-- Concrete two-column monitoring pass used to refute claim C2: column
"A" gets new item `a2` and its log write succeeds; column "B" gets new
item `b2` but its log write raises (and is swallowed by the `except` at
`tweet_scraper.py` line 320). -/
def c2CexCols : List TweetScraper.ColSpec :=
  [⟨"A", ["a2", "a1"], true⟩, ⟨"B", ["b2", "b1"], false⟩]

/-- Initial in-memory index for the C2 scenario (equal to the persisted
index loaded at startup). -/
def c2CexMem : String → Option String :=
  fun c => if c = "A" then some "a1" else if c = "B" then some "b1" else none

/-- Initial on-disk raw logs for the C2 scenario. -/
def c2CexLogs : String → List String :=
  fun c => if c = "A" then ["a1"] else if c = "B" then ["b1"] else []

/-- Final persisted state of the C2 scenario (the run completes — no
crash is even needed). -/
def c2CexFinal : TweetScraper.PersistState :=
  TweetScraper.persistAfter ⟨c2CexLogs, c2CexMem⟩
    (TweetScraper.scrapeEffects c2CexCols c2CexMem c2CexLogs false)

/-- Claim C2, counterexample: when column B's raw-log write fails while
column A's succeeds, `scrape_all_columns` still persists the whole
in-memory index (line 297 updated B's entry before the write was
attempted; line 325 runs because A produced a result), so the persisted
DedupIndex points B at `b2`, an id absent from B's on-disk log — the
log/index pair is not atomic and the claimed invariant fails in a
reachable (non-crash) state. -/
theorem c2_counterexample_index_ahead_of_log :
    c2CexFinal.disk "B" = some "b2" ∧
    c2CexFinal.logs "B" = ["b1"] ∧
    ¬ TweetScraper.IndexConsistent c2CexFinal := by
  refine ⟨by decide, by decide, ?_⟩
  intro hinv
  have h1 : c2CexFinal.disk "B" = some "b2" := by decide
  have h2 := hinv "B" "b2" h1
  have h3 : c2CexFinal.logs "B" = ["b1"] := by decide
  rw [h3] at h2
  simp at h2

/-- Claim C2, amended: the raw-log writes are ordered before the single
persisted index update, so in any monitoring pass in which every
per-column log write succeeds, every crash-prefix of the effect
sequence leaves the persisted state consistent (the persisted
DedupIndex never points at an id absent from that column's on-disk
log), provided the initial persisted state is consistent and the
in-memory index matches the logs. The pair is not atomic in general:
when one column's log write fails while another column has new items,
the final persisted index can point at an unlogged id
(see the counterexample). -/
theorem c2_amended_ordered_writes_crash_safe :
    ∀ (cols : List TweetScraper.ColSpec) (mem : String → Option String)
      (logs : String → List String) (disk : String → Option String),
      (∀ col ∈ cols, col.writeOk = true) →
      (∀ c i, mem c = some i → i ∈ logs c) →
      TweetScraper.IndexConsistent ⟨logs, disk⟩ →
      ∀ pre, pre <+: TweetScraper.scrapeEffects cols mem logs false →
        TweetScraper.IndexConsistent (TweetScraper.persistAfter ⟨logs, disk⟩ pre) :=
  fun cols mem logs disk hok hml hinv =>
    TweetScraper.scrapeEffects_inv cols mem logs disk false hok hml hinv

/-- Witness for `c2_amended_ordered_writes_crash_safe`: a concrete
single-column pass with a successful write, taken at the full-trace
prefix; the consistency it guarantees places the newly persisted index
id "a2" inside column A's on-disk log. -/
theorem c2_amended_witness :
    "a2" ∈ (TweetScraper.persistAfter ⟨fun _ => ["a1"], fun _ => some "a1"⟩
        (TweetScraper.scrapeEffects [⟨"A", ["a2", "a1"], true⟩]
          (fun _ => some "a1") (fun _ => ["a1"]) false)).logs "A" := by
  have h := c2_amended_ordered_writes_crash_safe [⟨"A", ["a2", "a1"], true⟩]
    (fun _ => some "a1") (fun _ => ["a1"]) (fun _ => some "a1")
    (by intro col hc
        simp only [List.mem_singleton] at hc
        subst hc
        rfl)
    (by intro c i h
        simp only [Option.some.injEq] at h
        subst h
        simp)
    (by intro c i h
        simp only [Option.some.injEq] at h
        subst h
        simp)
    (TweetScraper.scrapeEffects [⟨"A", ["a2", "a1"], true⟩]
      (fun _ => some "a1") (fun _ => ["a1"]) false)
    (List.prefix_refl _)
  exact h "A" "a2" (by decide)

/-- Claim C8: every daily batch run clears the scraping flag for its
duration (the stages observe `is_scraping = false`) and the
`finally` block restores it, so after any run — including one whose
stage sequence failed — the flag is true again; while the flag is
false, an iteration of the polling loop sleeps and rechecks instead of
starting a fetch cycle, and with the flag true it fetches. -/
theorem c8_batch_flag_restored_and_observed :
    (∀ (s : MainBot.BotState) (stages : List (Option String)),
      (MainBot.processDailySummaries s stages).1.is_scraping = true ∧
      (MainBot.processDailySummaries s stages).2.1 = false) ∧
    (∀ s : MainBot.BotState, s.is_scraping = false →
      MainBot.continuousScrapingStep s = .sleepRecheck) ∧
    (∀ s : MainBot.BotState, s.is_scraping = true →
      MainBot.continuousScrapingStep s = .fetchCycle) := by
  refine ⟨fun s stages => ⟨rfl, rfl⟩, ?_, ?_⟩
  · intro s hs
    simp [MainBot.continuousScrapingStep, hs]
  · intro s hs
    simp [MainBot.continuousScrapingStep, hs]

/-- Witness for `c8_batch_flag_restored_and_observed`: a batch run
whose third stage fails still ends with the flag restored; a state with
the flag cleared sleeps and rechecks; a state with the flag set
fetches. -/
theorem c8_witness :
    (MainBot.processDailySummaries ⟨true, true⟩
        [none, none, some "refine failed", none, none]).1.is_scraping = true ∧
    (MainBot.processDailySummaries ⟨true, true⟩
        [none, none, some "refine failed", none, none]).2.1 = false ∧
    MainBot.continuousScrapingStep ⟨true, false⟩ = .sleepRecheck ∧
    MainBot.continuousScrapingStep ⟨true, true⟩ = .fetchCycle :=
  ⟨(c8_batch_flag_restored_and_observed.1 ⟨true, true⟩
      [none, none, some "refine failed", none, none]).1,
    (c8_batch_flag_restored_and_observed.1 ⟨true, true⟩
      [none, none, some "refine failed", none, none]).2,
    c8_batch_flag_restored_and_observed.2.1 ⟨true, false⟩ rfl,
    c8_batch_flag_restored_and_observed.2.2 ⟨true, true⟩ rfl⟩

/-- Claim C9: in the refiner's similarity analysis every parsed
classifier response passes the confidence gate — a `select`
(merge) decision is produced only when the response's confidence is
present and at least 0.95; a response with missing confidence (the
`result.get('confidence', 0)` default) or confidence below 0.95 yields
`keep_all` retaining every input item's id. -/
theorem c9_confidence_gate :
    ∀ (tweets : List TweetRefiner.RefTweet) (r : TweetRefiner.ApiResult)
      (d : TweetRefiner.Decision),
      TweetRefiner.analyzeSimilarity tweets (.ok r) = some d →
      (d.action = .select → ∃ conf, r.confidence = some conf ∧ 95 / 100 ≤ conf) ∧
      ((r.confidence = none ∨ r.confidence.getD 0 < 95 / 100) →
        d = ⟨.keep_all, tweets.map (·.id), "Confidence too low to determine similarity"⟩) := by
  intro tweets r d hd
  simp only [TweetRefiner.analyzeSimilarity, Option.some.injEq] at hd
  subst hd
  constructor
  · intro hsel
    simp only [TweetRefiner.processApiResult] at hsel
    split at hsel
    · exact TweetRefiner.Action.noConfusion hsel
    · rename_i hconf
      match hc : r.confidence with
      | none =>
        rw [hc] at hconf
        simp only [Option.getD_none] at hconf
        exact absurd (by norm_num : (0 : ℚ) < 95 / 100) hconf
      | some conf =>
        rw [hc] at hconf
        simp only [Option.getD_some] at hconf
        exact ⟨conf, rfl, not_lt.mp hconf⟩
  · intro hlow
    simp only [TweetRefiner.processApiResult]
    rw [if_pos]
    rcases hlow with h | h
    · simp [h]
    · exact h

/-- Witness for `c9_confidence_gate`: a classifier response asserting
duplicates with confidence 0.5 is gated to `keep_all` retaining both
input ids. -/
theorem c9_witness :
    TweetRefiner.processApiResult
        [TweetRefiner.RefTweet.mk "1" "text one here" "a" "" false false none none,
         TweetRefiner.RefTweet.mk "2" "text two here" "b" "" false false none none]
        ⟨some (1 / 2), true, ["1"], "claims duplicates"⟩
      = ⟨.keep_all, ["1", "2"], "Confidence too low to determine similarity"⟩ := by
  have h := c9_confidence_gate
    [TweetRefiner.RefTweet.mk "1" "text one here" "a" "" false false none none,
     TweetRefiner.RefTweet.mk "2" "text two here" "b" "" false false none none]
    ⟨some (1 / 2), true, ["1"], "claims duplicates"⟩
    (TweetRefiner.processApiResult
      [TweetRefiner.RefTweet.mk "1" "text one here" "a" "" false false none none,
       TweetRefiner.RefTweet.mk "2" "text two here" "b" "" false false none none]
      ⟨some (1 / 2), true, ["1"], "claims duplicates"⟩) rfl
  have h2 := h.2 (Or.inr (by norm_num))
  rw [h2]
  rfl

/-- Claim C3, counterexample: two items with identical text — for which
the spec's three lexical conditions (Jaccard ≥ 0.9, positional overlap
≥ 0.9, size difference ≤ 3) all hold — are nevertheless not judged
similar by the code when the classifier response carries confidence
0.5: the decision is `keep_all` (both retained, no merge). The code
contains no lexical-similarity computation at all, so the claimed
"if and only if" fails. -/
theorem c3_counterexample_lexical_conditions_not_used :
    TweetRefiner.specLexicalSimilar "alpha beta gamma" "alpha beta gamma" ∧
    TweetRefiner.analyzeSimilarity
        [TweetRefiner.RefTweet.mk "1" "alpha beta gamma" "a" "" false false none none,
         TweetRefiner.RefTweet.mk "2" "alpha beta gamma" "b" "" false false none none]
        (.ok ⟨some (1 / 2), true, ["1"], "claims duplicates"⟩)
      = some ⟨.keep_all, ["1", "2"], "Confidence too low to determine similarity"⟩ := by
  constructor
  · have ht : TweetRefiner.specTokenize "alpha beta gamma" = ["alpha", "beta", "gamma"] := by
      decide
    have h1 : (["alpha", "beta", "gamma"] : List String).dedup = ["alpha", "beta", "gamma"] := by
      decide
    have h2 : (["alpha", "beta", "gamma"] : List String).filter
        (fun w => (["alpha", "beta", "gamma"] : List String).contains w)
        = ["alpha", "beta", "gamma"] := by decide
    have h3 : ((["alpha", "beta", "gamma"] : List String) ++ ["alpha", "beta", "gamma"]).dedup
        = ["alpha", "beta", "gamma"] := by decide
    have h4 : ((List.range 3).countP
        (fun i => (["alpha", "beta", "gamma"] : List String).getD i ""
          == (["alpha", "beta", "gamma"] : List String).getD i "")) = 3 := by decide
    refine ⟨?_, ?_, ?_⟩
    · rw [ht]
      simp only [TweetRefiner.specJaccard, h1, h2, h3]
      norm_num
    · rw [ht]
      simp only [TweetRefiner.specSeqOverlap, List.length_cons, List.length_nil]
      norm_num [h4]
    · rw [ht, h1]
      norm_num
  · simp only [TweetRefiner.analyzeSimilarity, TweetRefiner.processApiResult,
      Option.getD_some, Option.some.injEq]
    rw [if_pos (by norm_num)]
    rfl

/-- Claim C3, amended: the code has no lexical-similarity phase;
whether remaining items are merged is decided solely by the external
classifier's parsed response — a `select` (merge) decision is produced
exactly when the response's confidence (defaulting to 0 when missing)
is at least 0.95 and `are_duplicates` is set, in which case the kept
ids are exactly the response's `keep_tweet_ids`; in every other case
the decision is `keep_all`. -/
theorem c3_amended_merge_is_classifier_response_only :
    ∀ (tweets : List TweetRefiner.RefTweet) (r : TweetRefiner.ApiResult),
      ((TweetRefiner.processApiResult tweets r).action = .select ↔
        (95 / 100 ≤ r.confidence.getD 0 ∧ r.are_duplicates = true)) ∧
      ((TweetRefiner.processApiResult tweets r).action = .select →
        (TweetRefiner.processApiResult tweets r).selected_tweets = r.keep_tweet_ids) := by
  intro tweets r
  constructor
  · constructor
    · intro hsel
      simp only [TweetRefiner.processApiResult] at hsel
      split at hsel
      · exact TweetRefiner.Action.noConfusion hsel
      · rename_i hconf
        split at hsel
        · rename_i hdup
          exact ⟨not_lt.mp hconf, hdup⟩
        · exact TweetRefiner.Action.noConfusion hsel
    · rintro ⟨hconf, hdup⟩
      simp only [TweetRefiner.processApiResult, if_neg (not_lt.mpr hconf), hdup, if_true]
  · intro hsel
    simp only [TweetRefiner.processApiResult] at hsel ⊢
    split at hsel
    · exact TweetRefiner.Action.noConfusion hsel
    · rename_i hconf
      split at hsel
      · rename_i hdup
        rw [if_neg hconf, if_pos hdup]
      · exact TweetRefiner.Action.noConfusion hsel

/-- Witness for `c3_amended_merge_is_classifier_response_only`: with
confidence 0.96 and `are_duplicates` set, the decision is `select` with
exactly the response's kept ids. -/
theorem c3_amended_witness :
    (TweetRefiner.processApiResult
        [TweetRefiner.RefTweet.mk "1" "alpha beta gamma" "a" "" false false none none,
         TweetRefiner.RefTweet.mk "2" "alpha beta gamma" "b" "" false false none none]
        ⟨some (96 / 100), true, ["1"], "dup"⟩).action = .select ∧
    (TweetRefiner.processApiResult
        [TweetRefiner.RefTweet.mk "1" "alpha beta gamma" "a" "" false false none none,
         TweetRefiner.RefTweet.mk "2" "alpha beta gamma" "b" "" false false none none]
        ⟨some (96 / 100), true, ["1"], "dup"⟩).selected_tweets = ["1"] := by
  have h := c3_amended_merge_is_classifier_response_only
    [TweetRefiner.RefTweet.mk "1" "alpha beta gamma" "a" "" false false none none,
     TweetRefiner.RefTweet.mk "2" "alpha beta gamma" "b" "" false false none none]
    ⟨some (96 / 100), true, ["1"], "dup"⟩
  have hsel := h.1.mpr ⟨by norm_num, rfl⟩
  exact ⟨hsel, h.2 hsel⟩

/-!
Lemmas about the refiner's chunked processing (`tweet_refiner.py`).
-/

namespace TweetRefiner

theorem chunksOfFuel_flatten {n : Nat} (hn : 0 < n) :
    ∀ (fuel : Nat) (l : List α), l.length ≤ fuel →
      (chunksOfFuel n fuel l).flatten = l := by
  intro fuel
  induction fuel with
  | zero =>
    intro l hl
    have : l = [] := List.eq_nil_of_length_eq_zero (by omega)
    subst this
    rfl
  | succ f ih =>
    intro l hl
    match l with
    | [] => rfl
    | x :: xs =>
      simp only [chunksOfFuel]
      rw [if_neg (by omega)]
      simp only [List.flatten_cons]
      rw [ih ((x :: xs).drop n) (by simp only [List.length_drop, List.length_cons] at hl ⊢; omega)]
      exact List.take_append_drop n (x :: xs)

theorem chunksOf_flatten {n : Nat} (hn : 0 < n) (l : List α) :
    (chunksOf n l).flatten = l :=
  chunksOfFuel_flatten hn l.length l (le_refl _)

theorem chunksOfFuel_length {n : Nat} :
    ∀ (fuel : Nat) (l : List α) (c : List α), c ∈ chunksOfFuel n fuel l →
      c.length ≤ n := by
  intro fuel
  induction fuel with
  | zero =>
    intro l c hc
    match l with
    | [] => simp [chunksOfFuel] at hc
    | x :: xs => simp [chunksOfFuel] at hc
  | succ f ih =>
    intro l c hc
    match l with
    | [] => simp [chunksOfFuel] at hc
    | x :: xs =>
      simp only [chunksOfFuel] at hc
      split at hc
      · simp at hc
      · rcases List.mem_cons.mp hc with h | h
        · subst h
          simp [List.length_take]
        · exact ih _ c h

theorem chunksOf_length {n : Nat} (l : List α) (c : List α) (hc : c ∈ chunksOf n l) :
    c.length ≤ n :=
  chunksOfFuel_length l.length l c hc

theorem repostLoop_mem :
    ∀ (rs nr all acc : List RefTweet),
      (∀ x ∈ (repostLoop rs nr all acc).1, x ∈ all ∨ x ∈ acc) ∧
      (∀ x ∈ (repostLoop rs nr all acc).2, x ∈ nr) := by
  intro rs
  induction rs with
  | nil =>
    intro nr all acc
    exact ⟨fun x hx => Or.inr hx, fun x hx => hx⟩
  | cons rp rest ih =>
    intro nr all acc
    simp only [repostLoop]
    cases hh : handleRepostOrQuote (rp :: nr) with
    | some result =>
      constructor
      · intro x hx
        rcases (ih _ all _).1 x hx with h | h
        · exact Or.inl h
        · rcases List.mem_append.mp h with h1 | h1
          · exact Or.inr h1
          · exact Or.inl (List.mem_of_mem_filter h1)
      · intro x hx
        exact List.mem_of_mem_filter ((ih _ all _).2 x hx)
    | none => exact ih nr all acc

theorem groupTweets_mem (oracle : List RefTweet → ApiOutcome) (tweets : List RefTweet) :
    (∀ g ∈ (groupTweets oracle tweets).1, ∀ x ∈ g, x ∈ tweets) ∧
    (∀ q ∈ (groupTweets oracle tweets).2, ∀ x ∈ q, x ∈ tweets) := by
  have hrl := repostLoop_mem (tweets.filter (·.isRepost))
    (tweets.filter (fun t => !t.isRepost)) tweets []
  rcases hrleq : repostLoop (tweets.filter (·.isRepost))
      (tweets.filter (fun t => !t.isRepost)) tweets [] with ⟨final₀, nr⟩
  rw [hrleq] at hrl
  have hfin : ∀ x ∈ final₀, x ∈ tweets := by
    intro x hx
    rcases hrl.1 x hx with h | h
    · exact h
    · simp at h
  have hnr : ∀ x ∈ nr, x ∈ tweets := by
    intro x hx
    exact List.mem_of_mem_filter (hrl.2 x hx)
  have hboth : ∀ x ∈ final₀ ++ nr, x ∈ tweets := by
    intro x hx
    rcases List.mem_append.mp hx with h | h
    · exact hfin x h
    · exact hnr x h
  simp only [groupTweets, hrleq]
  split
  · cases hora : analyzeSimilarity nr (oracle nr) with
    | some d =>
      by_cases hact : d.action = .select
      · simp only [hora, hact, if_true]
        constructor
        · intro g hg x hx
          simp only [List.mem_singleton] at hg
          subst hg
          rcases List.mem_append.mp hx with h | h
          · exact hfin x h
          · exact hnr x (List.mem_of_mem_filter h)
        · intro q hq x hx
          simp only [List.mem_singleton] at hq
          subst hq
          exact hnr x hx
      · simp only [hora, hact, if_false]
        constructor
        · intro g hg x hx
          simp only [List.mem_singleton] at hg
          subst hg
          exact hboth x hx
        · intro q hq x hx
          simp only [List.mem_singleton] at hq
          subst hq
          exact hnr x hx
    | none =>
      simp only [hora]
      constructor
      · intro g hg x hx
        simp only [List.mem_singleton] at hg
        subst hg
        exact hboth x hx
      · intro q hq x hx
        simp only [List.mem_singleton] at hq
        subst hq
        exact hnr x hx
  · constructor
    · intro g hg x hx
      simp only [List.mem_singleton] at hg
      subst hg
      exact hboth x hx
    · intro q hq x hx
      simp at hq

theorem processGroups_queries_mem (oracle : List RefTweet → ApiOutcome) :
    ∀ (groups : List (List RefTweet)) (q : List RefTweet),
      q ∈ (processGroups oracle groups).2 → ∃ g ∈ groups, ∀ x ∈ q, x ∈ g := by
  intro groups
  induction groups with
  | nil => intro q hq; simp [processGroups] at hq
  | cons g rest ih =>
    intro q hq
    rcases hpg : processGroups oracle rest with ⟨restR, restQ⟩
    simp only [processGroups, hpg] at hq
    split at hq
    · obtain ⟨g', hg', hsub⟩ := ih q (by rw [hpg]; exact hq)
      exact ⟨g', List.mem_cons_of_mem _ hg', hsub⟩
    · split at hq
      · obtain ⟨g', hg', hsub⟩ := ih q (by rw [hpg]; exact hq)
        exact ⟨g', List.mem_cons_of_mem _ hg', hsub⟩
      · rcases List.mem_cons.mp hq with h | h
        · subst h
          exact ⟨g, List.mem_cons_self _ _, fun x hx => List.mem_of_mem_filter hx⟩
        · obtain ⟨g', hg', hsub⟩ := ih q (by rw [hpg]; exact h)
          exact ⟨g', List.mem_cons_of_mem _ hg', hsub⟩

theorem processChunk_queries_mem (oracle : List RefTweet → ApiOutcome)
    (chunk : List RefTweet) :
    ∀ q ∈ (processChunk oracle chunk).2, ∀ t ∈ q, t ∈ chunk := by
  have hg := groupTweets_mem oracle chunk
  rcases hgeq : groupTweets oracle chunk with ⟨groups, qs⟩
  rw [hgeq] at hg
  rcases hpeq : processGroups oracle groups with ⟨r, qs'⟩
  intro q hq t ht
  simp only [processChunk, hgeq, hpeq] at hq
  rcases List.mem_append.mp hq with h | h
  · exact hg.2 q h t ht
  · obtain ⟨g, hgmem, hsub⟩ := processGroups_queries_mem oracle groups q (by rw [hpeq]; exact h)
    exact hg.1 g hgmem t (hsub t ht)

theorem processChunk_mem_column (oracle : List RefTweet → ApiOutcome)
    (tweets : List RefTweet) (c : List RefTweet) (a : RefTweet)
    (hc : c ∈ chunksOf chunk_size tweets) (ha : a ∈ (processChunk oracle c).1) :
    a ∈ processColumn oracle tweets := by
  unfold processColumn
  rw [List.mem_flatten]
  exact ⟨(processChunk oracle c).1, List.mem_map_of_mem _ hc, ha⟩

end TweetRefiner

/-- Claim C10: the refiner partitions a column's item sequence into
fixed consecutive chunks of size 10 (the chunks concatenate back to the
original sequence, each chunk has at most 10 items) and compares items
only within a chunk — every tweet list ever handed to
`analyze_similarity` while processing a chunk draws its members from
that chunk alone — so two items placed in different chunks are never
compared, and whenever each of them survives its own chunk's
processing, both appear in the refined output even if they are
duplicates of one another. -/
theorem c10_chunked_processing_no_cross_chunk_comparison :
    (∀ tweets : List TweetRefiner.RefTweet,
      (TweetRefiner.chunksOf TweetRefiner.chunk_size tweets).flatten = tweets) ∧
    (∀ (tweets c : List TweetRefiner.RefTweet),
      c ∈ TweetRefiner.chunksOf TweetRefiner.chunk_size tweets →
      c.length ≤ TweetRefiner.chunk_size) ∧
    (∀ (oracle : List TweetRefiner.RefTweet → TweetRefiner.ApiOutcome)
      (chunk q : List TweetRefiner.RefTweet) (t : TweetRefiner.RefTweet),
      q ∈ (TweetRefiner.processChunk oracle chunk).2 → t ∈ q → t ∈ chunk) ∧
    (∀ (oracle : List TweetRefiner.RefTweet → TweetRefiner.ApiOutcome)
      (tweets c₁ c₂ : List TweetRefiner.RefTweet) (a b : TweetRefiner.RefTweet),
      c₁ ∈ TweetRefiner.chunksOf TweetRefiner.chunk_size tweets →
      c₂ ∈ TweetRefiner.chunksOf TweetRefiner.chunk_size tweets →
      a ∈ (TweetRefiner.processChunk oracle c₁).1 →
      b ∈ (TweetRefiner.processChunk oracle c₂).1 →
      a ∈ TweetRefiner.processColumn oracle tweets ∧
      b ∈ TweetRefiner.processColumn oracle tweets) := by
  refine ⟨?_, ?_, ?_, ?_⟩
  · intro tweets
    exact TweetRefiner.chunksOf_flatten (by norm_num [TweetRefiner.chunk_size]) tweets
  · intro tweets c hc
    exact TweetRefiner.chunksOf_length tweets c hc
  · intro oracle chunk q t hq ht
    exact TweetRefiner.processChunk_queries_mem oracle chunk q hq t ht
  · intro oracle tweets c₁ c₂ a b hc₁ hc₂ ha hb
    exact ⟨TweetRefiner.processChunk_mem_column oracle tweets c₁ a hc₁ ha,
      TweetRefiner.processChunk_mem_column oracle tweets c₂ b hc₂ hb⟩

/-- A duplicate-heavy tweet used in the C10 witness scenario: identical
text across distinct ids. -/
def c10Tweet (i : String) : TweetRefiner.RefTweet :=
  ⟨i, "same dup text", "a", "", false, false, none, none⟩

/-- An 11-item column: items 0-9 fall in the first chunk, item 10 in
the second, with item 10 an exact textual duplicate of item 0. -/
def c10Col : List TweetRefiner.RefTweet :=
  [c10Tweet "0", c10Tweet "1", c10Tweet "2", c10Tweet "3", c10Tweet "4", c10Tweet "5",
   c10Tweet "6", c10Tweet "7", c10Tweet "8", c10Tweet "9", c10Tweet "10"]

/-- The classifier outcome for the C10 witness: the API call fails on
its final attempt, so every group resolves to `keep_all`. -/
def c10Oracle : List TweetRefiner.RefTweet → TweetRefiner.ApiOutcome := fun _ => .exnFail

/-- The first chunk of `c10Col`. -/
def c10Chunk1 : List TweetRefiner.RefTweet :=
  [c10Tweet "0", c10Tweet "1", c10Tweet "2", c10Tweet "3", c10Tweet "4", c10Tweet "5",
   c10Tweet "6", c10Tweet "7", c10Tweet "8", c10Tweet "9"]

/-- Witness for `c10_chunked_processing_no_cross_chunk_comparison`: in
an 11-item column whose items 0 and 10 are textual duplicates placed in
different chunks, both survive the refinement and appear in the output;
the chunks concatenate back to the column; the first chunk respects the
size bound; a query made while processing chunk 1 stays within
chunk 1. -/
theorem c10_witness :
    c10Tweet "0" ∈ TweetRefiner.processColumn c10Oracle c10Col ∧
    c10Tweet "10" ∈ TweetRefiner.processColumn c10Oracle c10Col ∧
    (TweetRefiner.chunksOf TweetRefiner.chunk_size c10Col).flatten = c10Col ∧
    c10Chunk1.length ≤ TweetRefiner.chunk_size ∧
    c10Tweet "0" ∈ c10Chunk1 := by
  have h4 := c10_chunked_processing_no_cross_chunk_comparison.2.2.2 c10Oracle c10Col
    c10Chunk1 [c10Tweet "10"] (c10Tweet "0") (c10Tweet "10")
    (by decide) (by decide) (by decide) (by decide)
  have h3 := c10_chunked_processing_no_cross_chunk_comparison.2.2.1 c10Oracle
    c10Chunk1 c10Chunk1 (c10Tweet "0") (by decide) (by decide)
  have h1 := c10_chunked_processing_no_cross_chunk_comparison.1 c10Col
  have h2 := c10_chunked_processing_no_cross_chunk_comparison.2.1 c10Col c10Chunk1 (by decide)
  exact ⟨h4.1, h4.2, h1, h2, h3⟩
